import Mathlib

/-!
# Verification of the graphics-engine core (Go sources)

Shallow embedding of the renderer's core: the frame buffer with z-buffer
(`image.go`), the octant-generalized Bresenham line rasterizer and the
polygon drawer (`image.go`), the edge/polygon point matrix (`matrix.go`),
the coordinate-system stack (`stack.go`, `constants.go`), the rotation
builders (`matrix.go`, `constants.go`) and the knob `vary` directive
(`parser.go`).

Modelling conventions, used throughout:

* Go `float64` values are modelled as exact rationals (`ℚ`).  Every
  concrete input used in a witness or counterexample below is a small
  dyadic rational on which the Go program's floating-point arithmetic is
  exact, so the `ℚ` model and the program agree at those inputs.
* The depth buffer entry `math.Inf(-1)` is modelled as `⊥` in `WithBot ℚ`;
  a stored finite depth `z` is the coercion `(z : WithBot ℚ)`.  The Go
  comparison `z > zBuffer[y][x]` becomes the `WithBot` order, which agrees
  with IEEE comparison against `-Inf` and against finite stored values.
* Go's `int(f)` conversion truncates toward zero; `goInt` below does the
  same on `ℚ`.
* Division in `ℚ` returns `0` on a zero denominator, where IEEE gives
  `±Inf`/`NaN`.  The only place the Go code can divide by zero and the
  quotient is later *compared* is the slope `m = A / -B` of a vertical
  line; there the embedding branches explicitly on `-B = 0` and encodes
  the outcome of the IEEE comparisons with `±Inf`/`NaN` (see
  `drawLineCore`).  The z-increment `dz` can also divide by zero, but only
  in the one-pixel degenerate case where the plotted depth never uses it.
* The real-valued trigonometry of the rotation builders is modelled over
  `ℝ` (`Real.sin`, `Real.cos`, `Real.pi`); those definitions are the only
  noncomputable ones.
-/

namespace GE


/-- `Color` from image.go: three 8-bit channels.  The channels are only
ever moved around, never computed with, so `ℕ` labels are faithful. -/
structure Color where
  r : ℕ
  g : ℕ
  b : ℕ
deriving DecidableEq

/-- `Black = Color{0,0,0}` from image.go; also the Go zero value of
`Color`, hence the initial content of a new frame. -/
def Black : Color := ⟨0, 0, 0⟩

/-- `White = Color{255,255,255}` from image.go. -/
def White : Color := ⟨255, 255, 255⟩

/-- Go's `int(f)` conversion of a float to an int truncates toward zero. -/
def goInt (q : ℚ) : ℤ :=
  if q < 0 then -(⌊-q⌋) else ⌊q⌋

/-- `Image` from image.go: a pixel grid and a parallel depth grid, indexed
`[y][x]`, plus the canvas dimensions.  The grids are modelled as total
functions; only indices `0 ≤ y < height`, `0 ≤ x < width` correspond to
Go array cells, and no definition below reads outside that range. -/
structure Image where
  frame : ℤ → ℤ → Color
  zBuffer : ℤ → ℤ → WithBot ℚ
  height : ℤ
  width : ℤ

/-- `NewImage` from image.go: pixels start at the zero value `Color{0,0,0}`
and every depth entry starts at `math.Inf(-1)` (modelled as `⊥`). -/
def newImage (height width : ℤ) : Image :=
  { frame := fun _ _ => Black
    zBuffer := fun _ _ => ⊥
    height := height
    width := width }

/-- `Image.set` from image.go: out-of-canvas writes are silently dropped;
in-canvas writes overwrite pixel and depth only when the new `z` is
strictly greater than the stored depth. -/
def Image.set (img : Image) (x y : ℤ) (z : ℚ) (c : Color) : Image :=
  if x < 0 ∨ img.width ≤ x ∨ y < 0 ∨ img.height ≤ y then img
  else if img.zBuffer y x < (z : WithBot ℚ) then
    { img with
      frame := fun yy xx => if yy = y ∧ xx = x then c else img.frame yy xx
      zBuffer := fun yy xx => if yy = y ∧ xx = x then (z : WithBot ℚ) else img.zBuffer yy xx }
  else img

/-- `Image.Fill` from image.go: the loop writes `frame[y][x] = c` for every
in-range cell and never touches `zBuffer`. -/
def Image.fill (img : Image) (c : Color) : Image :=
  { img with
    frame := fun yy xx =>
      if 0 ≤ yy ∧ yy < img.height ∧ 0 ≤ xx ∧ xx < img.width then c
      else img.frame yy xx }

/-- Loop body of `drawOctant1` (image.go): plot, maybe advance `y`, then
advance `x`; runs while `x1 ≤ x2`.  Produces the list of `set` calls as
`(x, y, z)` triples. -/
def octLoop1 (x1 y1 z1 x2 A B dz d : ℚ) : List (ℤ × ℤ × ℚ) :=
  if h : x1 ≤ x2 then
    (goInt x1, goInt y1, z1) ::
      (if 0 < d then octLoop1 (x1 + 1) (y1 + 1) (z1 + dz) x2 A B dz (d + B + A)
       else octLoop1 (x1 + 1) y1 (z1 + dz) x2 A B dz (d + A))
  else []
termination_by (⌈x2 - x1 + 1⌉ : ℤ).toNat
decreasing_by
  all_goals
    simp_wf
    have h2 : x2 - (x1 + 1) = x2 - x1 - 1 := by ring
    have h3 : (⌈x2 - x1 - 1⌉ : ℤ) = ⌈x2 - x1⌉ - 1 := Int.ceil_sub_one _
    have h4 : (0 : ℤ) ≤ ⌈x2 - x1⌉ := Int.ceil_nonneg (sub_nonneg.mpr h)
    rw [h2, h3]
    omega

/-- Loop body of `drawOctant2` (image.go): plot, maybe advance `x`, then
advance `y`; runs while `y1 ≤ y2`. -/
def octLoop2 (x1 y1 z1 y2 A B dz d : ℚ) : List (ℤ × ℤ × ℚ) :=
  if h : y1 ≤ y2 then
    (goInt x1, goInt y1, z1) ::
      (if d < 0 then octLoop2 (x1 + 1) (y1 + 1) (z1 + dz) y2 A B dz (d + A + B)
       else octLoop2 x1 (y1 + 1) (z1 + dz) y2 A B dz (d + B))
  else []
termination_by (⌈y2 - y1 + 1⌉ : ℤ).toNat
decreasing_by
  all_goals
    simp_wf
    have h2 : y2 - (y1 + 1) = y2 - y1 - 1 := by ring
    have h3 : (⌈y2 - y1 - 1⌉ : ℤ) = ⌈y2 - y1⌉ - 1 := Int.ceil_sub_one _
    have h4 : (0 : ℤ) ≤ ⌈y2 - y1⌉ := Int.ceil_nonneg (sub_nonneg.mpr h)
    rw [h2, h3]
    omega

/-- Loop body of `drawOctant7` (image.go): plot, maybe advance `x`, then
decrease `y`; runs while `y1 ≥ y2`. -/
def octLoop7 (x1 y1 z1 y2 A B dz d : ℚ) : List (ℤ × ℤ × ℚ) :=
  if h : y2 ≤ y1 then
    (goInt x1, goInt y1, z1) ::
      (if 0 < d then octLoop7 (x1 + 1) (y1 - 1) (z1 + dz) y2 A B dz (d + A - B)
       else octLoop7 x1 (y1 - 1) (z1 + dz) y2 A B dz (d - B))
  else []
termination_by (⌈y1 - y2 + 1⌉ : ℤ).toNat
decreasing_by
  all_goals
    simp_wf
    have h2 : y1 - 1 - y2 = y1 - y2 - 1 := by ring
    have h3 : (⌈y1 - y2 - 1⌉ : ℤ) = ⌈y1 - y2⌉ - 1 := Int.ceil_sub_one _
    have h4 : (0 : ℤ) ≤ ⌈y1 - y2⌉ := Int.ceil_nonneg (sub_nonneg.mpr h)
    rw [h2, h3]
    omega

/-- Loop body of `drawOctant8` (image.go): plot, maybe decrease `y`, then
advance `x`; runs while `x1 ≤ x2`. -/
def octLoop8 (x1 y1 z1 x2 A B dz d : ℚ) : List (ℤ × ℤ × ℚ) :=
  if h : x1 ≤ x2 then
    (goInt x1, goInt y1, z1) ::
      (if d < 0 then octLoop8 (x1 + 1) (y1 - 1) (z1 + dz) x2 A B dz (d - B + A)
       else octLoop8 (x1 + 1) y1 (z1 + dz) x2 A B dz (d + A))
  else []
termination_by (⌈x2 - x1 + 1⌉ : ℤ).toNat
decreasing_by
  all_goals
    simp_wf
    have h2 : x2 - (x1 + 1) = x2 - x1 - 1 := by ring
    have h3 : (⌈x2 - x1 - 1⌉ : ℤ) = ⌈x2 - x1⌉ - 1 := Int.ceil_sub_one _
    have h4 : (0 : ℤ) ≤ ⌈x2 - x1⌉ := Int.ceil_nonneg (sub_nonneg.mpr h)
    rw [h2, h3]
    omega

/-- `drawOctant1` (image.go): `d := A + B/2`, `dz := (z2-z1)/(x2-x1)`. -/
def drawOctant1 (x1 y1 z1 x2 y2 z2 A B : ℚ) : List (ℤ × ℤ × ℚ) :=
  octLoop1 x1 y1 z1 x2 A B ((z2 - z1) / (x2 - x1)) (A + B / 2)

/-- `drawOctant2` (image.go): `d := A/2 + B`, `dz := (z2-z1)/(y2-y1)`. -/
def drawOctant2 (x1 y1 z1 x2 y2 z2 A B : ℚ) : List (ℤ × ℤ × ℚ) :=
  octLoop2 x1 y1 z1 y2 A B ((z2 - z1) / (y2 - y1)) (A / 2 + B)

/-- `drawOctant7` (image.go): `d := A/2 + B`, `dz := (z2-z1)/(y2-y1)`. -/
def drawOctant7 (x1 y1 z1 x2 y2 z2 A B : ℚ) : List (ℤ × ℤ × ℚ) :=
  octLoop7 x1 y1 z1 y2 A B ((z2 - z1) / (y2 - y1)) (A / 2 + B)

/-- `drawOctant8` (image.go): `d := A - B/2`, `dz := (z2-z1)/(x2-x1)`. -/
def drawOctant8 (x1 y1 z1 x2 y2 z2 A B : ℚ) : List (ℤ × ℤ × ℚ) :=
  octLoop8 x1 y1 z1 x2 A B ((z2 - z1) / (x2 - x1)) (A - B / 2)

/-- Octant selection of `DrawLine` (image.go), after the endpoint swap.
Go computes `m = A / -B` in float64 and branches on `m ≥ 0`, `m ≤ 1`,
`m < -1`.  When `-B = 0` (vertical or degenerate line) the float quotient
is `+Inf` (`A > 0`), `-Inf` (`A < 0`) or `NaN` (`A = 0`), and those three
comparisons then select octant 2, octant 7 and octant 8 respectively; the
first branch below encodes exactly those outcomes.  Otherwise `-B > 0`
(the caller ensures `x1 ≤ x2`) and the branch uses the exact quotient. -/
def drawLineCore (x1 y1 z1 x2 y2 z2 : ℚ) : List (ℤ × ℤ × ℚ) :=
  let A := 2 * (y2 - y1)
  let B := 2 * (-(x2 - x1))
  if -B = 0 then
    if 0 < A then drawOctant2 x1 y1 z1 x2 y2 z2 A B
    else if A < 0 then drawOctant7 x1 y1 z1 x2 y2 z2 A B
    else drawOctant8 x1 y1 z1 x2 y2 z2 A B
  else
    let m := A / -B
    if 0 ≤ m then
      if m ≤ 1 then drawOctant1 x1 y1 z1 x2 y2 z2 A B
      else drawOctant2 x1 y1 z1 x2 y2 z2 A B
    else
      if m < -1 then drawOctant7 x1 y1 z1 x2 y2 z2 A B
      else drawOctant8 x1 y1 z1 x2 y2 z2 A B

/-- `DrawLine` (image.go): swap the endpoints (with their depths) so the
first has the smaller x, then rasterize; result is the list of plotted
`(x, y, z)` triples in plot order. -/
def drawLinePlots (x1 y1 z1 x2 y2 z2 : ℚ) : List (ℤ × ℤ × ℚ) :=
  if x2 < x1 then drawLineCore x2 y2 z2 x1 y1 z1
  else drawLineCore x1 y1 z1 x2 y2 z2

/-- `DrawLine` acting on an image: each plotted triple goes through the
depth-tested `set`. -/
def Image.drawLine (img : Image) (x1 y1 z1 x2 y2 z2 : ℚ) (c : Color) : Image :=
  (drawLinePlots x1 y1 z1 x2 y2 z2).foldl
    (fun im p => im.set p.1 p.2.1 p.2.2 c) img

/-- A homogeneous point column `(x, y, z, 1)` of the 4×N matrix, as
appended by `Matrix.AddPoint` (matrix.go); the constant fourth row is
implicit.  `DrawLines`/`DrawPolygons` read components 0..2 only. -/
structure Point3 where
  x : ℚ
  y : ℚ
  z : ℚ
deriving DecidableEq

/-- The edge/polygon matrix (matrix.go `Matrix` as used by the drawer):
a 4-row matrix of homogeneous point columns, represented by its list of
columns. -/
structure EdgeMatrix where
  points : List Point3

/-- `cols` of the Go matrix: the number of point columns. -/
def EdgeMatrix.cols (em : EdgeMatrix) : ℕ :=
  em.points.length

/-- `CrossProduct` (gmath.go) on 3-vectors. -/
def crossProduct (a b : Point3) : Point3 :=
  ⟨a.y * b.z - a.z * b.y, a.z * b.x - a.x * b.z, a.x * b.y - a.y * b.x⟩

/-- `isVisible` (image.go): the backface test; a triangle is drawn only
when the z-component of the winding normal is positive. -/
def isVisible (p0 p1 p2 : Point3) : Bool :=
  let a : Point3 := ⟨p1.x - p0.x, p1.y - p0.y, p1.z - p0.z⟩
  let b : Point3 := ⟨p2.x - p0.x, p2.y - p0.y, p2.z - p0.z⟩
  decide (0 < (crossProduct a b).z)

/-- The consecutive column pairs visited by the `DrawLines` loop
(`for i := 0; i < cols-1; i += 2`): disjoint pairs `(0,1),(2,3),…`, a
trailing unpaired column being dropped. -/
def linePairs : List Point3 → List (Point3 × Point3)
  | p0 :: p1 :: rest => (p0, p1) :: linePairs rest
  | _ => []

/-- The consecutive column triples visited by the `DrawPolygons` loop
(`for i := 0; i < cols-2; i += 3`): disjoint triples `(0,1,2),(3,4,5),…`,
trailing columns that do not complete a triple being dropped. -/
def polyTriples : List Point3 → List (Point3 × Point3 × Point3)
  | p0 :: p1 :: p2 :: rest => (p0, p1, p2) :: polyTriples rest
  | _ => []

/-- `DrawLines` (image.go): error when fewer than 2 columns, otherwise
draw each consecutive pair as a line. -/
def Image.drawLines (img : Image) (em : EdgeMatrix) (c : Color) :
    Except String Image :=
  if em.cols < 2 then Except.error "2 or more points are required for drawing"
  else Except.ok ((linePairs em.points).foldl
    (fun im pq => im.drawLine pq.1.x pq.1.y pq.1.z pq.2.x pq.2.y pq.2.z c) img)

/-- `DrawPolygons` (image.go): error when fewer than 3 columns, otherwise
for each consecutive triple, if visible, draw the three edge outlines
`p0→p1`, `p1→p2`, `p2→p0`. -/
def Image.drawPolygons (img : Image) (em : EdgeMatrix) (c : Color) :
    Except String Image :=
  if em.cols < 3 then Except.error "3 or more points are required for drawing"
  else Except.ok ((polyTriples em.points).foldl
    (fun im t =>
      if isVisible t.1 t.2.1 t.2.2 then
        ((im.drawLine t.1.x t.1.y t.1.z t.2.1.x t.2.1.y t.2.1.z c).drawLine
          t.2.1.x t.2.1.y t.2.1.z t.2.2.x t.2.2.y t.2.2.z c).drawLine
          t.2.2.x t.2.2.y t.2.2.z t.1.x t.1.y t.1.z c
      else im) img)

/-- C10 witness input: five columns, so 2 line pairs (resp. 1 triangle)
and a trailing remainder that completes no group. -/
def fiveEM : EdgeMatrix :=
  ⟨[⟨0, 0, 0⟩, ⟨3, 1, 0⟩, ⟨1, 3, 0⟩, ⟨2, 2, 0⟩, ⟨3, 3, 0⟩]⟩

/-- C1 counterexample input: a visible triangle with vertices (0,0,0),
(6,0,0), (0,6,0). -/
def triEM : EdgeMatrix :=
  ⟨[⟨0, 0, 0⟩, ⟨6, 0, 0⟩, ⟨0, 6, 0⟩]⟩

/-- C4 counterexample input: a 2×2 canvas with one depth-tested write at
(0,0), depth 5, then a `Fill Black`. -/
def fillExample : Image :=
  ((newImage 2 2).set 0 0 5 White).fill Black

/-- The assignment loop of the `VARY` case (parser.go):
`for frame := startFrame; frame <= endFrame; frame++ { knob[frame] = startValue; startValue += delta }`,
unrolled over its (concrete) iteration count `count = endFrame - startFrame + 1`. -/
def varyAssign (knob : List ℚ) (frame : ℕ) (v delta : ℚ) : ℕ → List ℚ
  | 0 => knob
  | count + 1 => varyAssign (knob.set frame v) (frame + 1) (v + delta) delta count

/-- The `VARY` case of `Parser.parse` (parser.go): validate the frame
range against the total frame count, take the existing knob table for the
name (or a fresh all-zero table of `frames` entries), compute
`delta = (endValue - startValue) / (endFrame - startFrame + 1)`, and
assign frames `startFrame..endFrame`. -/
def varyCase (frames : ℕ) (existing : Option (List ℚ)) (startFrame endFrame : ℤ)
    (startValue endValue : ℚ) : Except String (List ℚ) :=
  if frames = 0 then Except.error "number of frames is not set"
  else
    let knob := existing.getD (List.replicate frames 0)
    if startFrame < 0 ∨ (frames : ℤ) ≤ startFrame then
      Except.error "invalid start frame"
    else if endFrame < 0 ∨ (frames : ℤ) ≤ endFrame ∨ endFrame < startFrame then
      Except.error "invalid end frame"
    else
      Except.ok (varyAssign knob startFrame.toNat startValue
        ((endValue - startValue) / (((endFrame - startFrame : ℤ) : ℚ) + 1))
        (endFrame - startFrame + 1).toNat)

/-- 4×4 transform matrices (matrix.go `Matrix` in its 4×4 transform
role), over `ℝ` since the rotation builders use real trigonometry. -/
abbrev Mat4 := Matrix (Fin 4) (Fin 4) ℝ

/-- `Stack.Pop` (stack.go): `nil` on an empty stack, otherwise remove and
return the top.  The top of the Go slice is the head of the list. -/
def stackPop (s : List Mat4) : Option Mat4 × List Mat4 :=
  match s with
  | [] => (none, s)
  | top :: rest => (some top, rest)

/-- `Stack.Push` (stack.go). -/
def stackPush (s : List Mat4) (m : Mat4) : List Mat4 :=
  m :: s

/-- `Drawer.Pop` (constants.go): pop the coordinate-system stack and
discard the result. -/
def drawerPop (cs : List Mat4) : List Mat4 :=
  (stackPop cs).2

/-- `degreesToRadians` (matrix.go). -/
noncomputable def degreesToRadians (degrees : ℝ) : ℝ :=
  degrees * Real.pi / 180

/-- `MakeRotX` (matrix.go): note the function itself converts its
argument from degrees to radians before taking sines and cosines. -/
noncomputable def MakeRotX (theta : ℝ) : Mat4 :=
  let t := degreesToRadians theta
  Matrix.of ![![1, 0, 0, 0],
    ![0, Real.cos t, Real.sin t, 0],
    ![0, -Real.sin t, Real.cos t, 0],
    ![0, 0, 0, 1]]

/-- `MakeRotY` (matrix.go); converts its argument once more as well. -/
noncomputable def MakeRotY (theta : ℝ) : Mat4 :=
  let t := degreesToRadians theta
  Matrix.of ![![Real.cos t, 0, -Real.sin t, 0],
    ![0, 1, 0, 0],
    ![Real.sin t, 0, Real.cos t, 0],
    ![0, 0, 0, 1]]

/-- `MakeRotZ` (matrix.go); converts its argument once more as well. -/
noncomputable def MakeRotZ (theta : ℝ) : Mat4 :=
  let t := degreesToRadians theta
  Matrix.of ![![Real.cos t, Real.sin t, 0, 0],
    ![-Real.sin t, Real.cos t, 0, 0],
    ![0, 0, 1, 0],
    ![0, 0, 0, 1]]

/-- `Drawer.Rotate` (constants.go): convert the degree argument to
radians, build the axis rotation (which converts again, see `MakeRotX`),
pop the top of the coordinate stack, right-multiply and push back.
`Matrix.Multiply` on two 4×4 matrices passes the dimension check and is
the standard matrix product.  Go would dereference a `nil` top on an
empty stack; that panic is modelled as an error value. -/
noncomputable def drawerRotate (axis : String) (theta : ℝ) (cs : List Mat4) :
    Except String (List Mat4) :=
  let t := degreesToRadians theta
  let rotOpt : Option Mat4 :=
    if axis = "x" then some (MakeRotX t)
    else if axis = "y" then some (MakeRotY t)
    else if axis = "z" then some (MakeRotZ t)
    else none
  match rotOpt with
  | none => Except.error "axis must be x, y, or z"
  | some rotation =>
    match stackPop cs with
    | (none, _) => Except.error "nil stack top"
    | (some top, rest) => Except.ok (stackPush rest (top * rotation))

/-- The pixel position of a plotted `(x, y, z)` triple. -/
def posOf (p : ℤ × ℤ × ℚ) : ℤ × ℤ :=
  (p.1, p.2.1)

/-- The set of pixel positions a plot list writes. -/
def posSet (l : List (ℤ × ℤ × ℚ)) : Finset (ℤ × ℤ) :=
  (l.map posOf).toFinset

/-- `DrawLines` pairs two columns per edge; the loop visits
`⌊cols/2⌋` pairs. -/
theorem linePairs_length : ∀ l : List Point3, (linePairs l).length = l.length / 2
  | [] => by simp [linePairs]
  | [_] => by simp [linePairs]
  | _ :: _ :: rest => by
      have ih := linePairs_length rest
      simp only [linePairs, List.length_cons, ih]
      omega

/-- `DrawPolygons` takes three columns per triangle; the loop visits
`⌊cols/3⌋` triples. -/
theorem polyTriples_length : ∀ l : List Point3, (polyTriples l).length = l.length / 3
  | [] => by simp [polyTriples]
  | [_] => by simp [polyTriples]
  | [_, _] => by simp [polyTriples]
  | _ :: _ :: _ :: rest => by
      have ih := polyTriples_length rest
      simp only [polyTriples, List.length_cons, ih]
      omega

/-- C8: with fewer than 2 point columns `DrawLines` fails, and with fewer
than 3 point columns `DrawPolygons` fails, each with its error message;
the error is raised before any rasterization, so the frame buffer is
untouched (no `ok` image is produced). -/
theorem draw_insufficient_points (em : EdgeMatrix) (img : Image) (c : Color) :
    (em.cols < 2 →
      img.drawLines em c =
        Except.error "2 or more points are required for drawing") ∧
    (em.cols < 3 →
      img.drawPolygons em c =
        Except.error "3 or more points are required for drawing") := by
  constructor <;> intro h <;> simp [Image.drawLines, Image.drawPolygons, h]

/-- Witness for C8 on a one-column matrix: both drawing modes fail. -/
theorem draw_insufficient_points_witness :
    (newImage 4 4).drawLines ⟨[⟨1, 1, 0⟩]⟩ White =
      Except.error "2 or more points are required for drawing" ∧
    (newImage 4 4).drawPolygons ⟨[⟨1, 1, 0⟩]⟩ White =
      Except.error "3 or more points are required for drawing" := by
  have h := draw_insufficient_points ⟨[⟨1, 1, 0⟩]⟩ (newImage 4 4) White
  exact ⟨h.1 (by decide), h.2 (by decide)⟩

/-- C10: `DrawLines` draws exactly `⌊n/2⌋` edges from consecutive column
pairs and `DrawPolygons` processes exactly `⌊n/3⌋` consecutive column
triples; with at least 2 (resp. 3) columns no error is raised, so trailing
columns that do not complete a group are silently ignored. -/
theorem draw_group_counts (em : EdgeMatrix) (img : Image) (c : Color) :
    (linePairs em.points).length = em.cols / 2 ∧
    (polyTriples em.points).length = em.cols / 3 ∧
    (2 ≤ em.cols → ∃ img2, img.drawLines em c = Except.ok img2) ∧
    (3 ≤ em.cols → ∃ img2, img.drawPolygons em c = Except.ok img2) := by
  refine ⟨linePairs_length em.points, polyTriples_length em.points, ?_, ?_⟩
  · intro h
    refine ⟨(linePairs em.points).foldl
      (fun im pq => im.drawLine pq.1.x pq.1.y pq.1.z pq.2.x pq.2.y pq.2.z c) img, ?_⟩
    simp [Image.drawLines, Nat.not_lt.mpr h]
  · intro h
    refine ⟨(polyTriples em.points).foldl
      (fun im t =>
        if isVisible t.1 t.2.1 t.2.2 then
          ((im.drawLine t.1.x t.1.y t.1.z t.2.1.x t.2.1.y t.2.1.z c).drawLine
            t.2.1.x t.2.1.y t.2.1.z t.2.2.x t.2.2.y t.2.2.z c).drawLine
            t.2.2.x t.2.2.y t.2.2.z t.1.x t.1.y t.1.z c
        else im) img, ?_⟩
    simp [Image.drawPolygons, Nat.not_lt.mpr h]

/-- Witness for C10 on a five-column matrix. -/
theorem draw_group_counts_witness :
    (linePairs fiveEM.points).length = fiveEM.cols / 2 ∧
    (polyTriples fiveEM.points).length = fiveEM.cols / 3 ∧
    (∃ img2, (newImage 4 4).drawLines fiveEM White = Except.ok img2) ∧
    (∃ img2, (newImage 4 4).drawPolygons fiveEM White = Except.ok img2) := by
  have h := draw_group_counts fiveEM (newImage 4 4) White
  exact ⟨h.1, h.2.1, h.2.2.1 (by decide), h.2.2.2 (by decide)⟩

set_option maxRecDepth 100000 in
/-- C1: the claim says the rasterizer fills the triangle interior.  It
does not: on this visible triangle the pixel (2,2) — strictly inside the
triangle, between the left boundary x=0 and the right boundary x=4 of
scanline y=2 — is still `Black` after `DrawPolygons`, while the outline
pixel (0,2) did receive the draw color.  Only the three edge outlines are
rasterized. -/
theorem drawPolygons_interior_not_filled :
    isVisible ⟨0, 0, 0⟩ ⟨6, 0, 0⟩ ⟨0, 6, 0⟩ = true ∧
    ((newImage 10 10).drawPolygons triEM White).toOption.map
      (fun im => (im.frame 2 2, im.frame 2 0)) = some (Black, White) ∧
    Black ≠ White := by
  refine ⟨by with_unfolding_all decide, by with_unfolding_all decide, by decide⟩

/-- C1 (amended): for every visible triangle handed to `DrawPolygons`,
the rasterizer draws exactly the three depth-interpolated edge outlines
`p0→p1`, `p1→p2`, `p2→p0` through the line rasterizer's `set`; interior
pixels are not written. -/
theorem drawPolygons_draws_outlines (p0 p1 p2 : Point3) (img : Image)
    (c : Color) (hvis : isVisible p0 p1 p2 = true) :
    img.drawPolygons ⟨[p0, p1, p2]⟩ c =
      Except.ok (((img.drawLine p0.x p0.y p0.z p1.x p1.y p1.z c).drawLine
        p1.x p1.y p1.z p2.x p2.y p2.z c).drawLine
        p2.x p2.y p2.z p0.x p0.y p0.z c) := by
  simp [Image.drawPolygons, EdgeMatrix.cols, polyTriples, hvis]

/-- Witness for C1's amended theorem on the concrete visible triangle. -/
theorem drawPolygons_draws_outlines_witness :
    (newImage 10 10).drawPolygons triEM White =
      Except.ok ((((newImage 10 10).drawLine 0 0 0 6 0 0 White).drawLine
        6 0 0 0 6 0 White).drawLine 0 6 0 0 0 0 White) :=
  drawPolygons_draws_outlines ⟨0, 0, 0⟩ ⟨6, 0, 0⟩ ⟨0, 6, 0⟩
    (newImage 10 10) White (by with_unfolding_all decide)

/-- C4: the claim says `Fill` resets the depth grid to `−∞`.  It does
not: after a write of depth `5` at (0,0), `Fill Black` recolors the
pixel but the stored depth is still `5`, not `⊥` (= `−∞`). -/
theorem fill_keeps_zBuffer_counterexample :
    fillExample.frame 0 0 = Black ∧
    fillExample.zBuffer 0 0 = ((5 : ℚ) : WithBot ℚ) ∧
    fillExample.zBuffer 0 0 ≠ ⊥ := by
  refine ⟨rfl, ?_, ?_⟩ <;> decide

/-- C4 (amended): `Fill(c)` sets every in-canvas pixel to `c` and leaves
the depth grid unchanged; the depth grid is `−∞` only because `NewImage`
initializes it so. -/
theorem fill_sets_pixels_keeps_depth (img : Image) (c : Color) (y x : ℤ)
    (hy0 : 0 ≤ y) (hy : y < img.height) (hx0 : 0 ≤ x) (hx : x < img.width) :
    (img.fill c).frame y x = c ∧
    (img.fill c).zBuffer = img.zBuffer ∧
    (newImage img.height img.width).zBuffer y x = ⊥ := by
  refine ⟨?_, rfl, rfl⟩
  simp [Image.fill, hy0, hy, hx0, hx]

/-- Witness for C4's amended theorem at a concrete canvas and cell. -/
theorem fill_sets_pixels_keeps_depth_witness :
    ((newImage 2 2).fill White).frame 1 0 = White ∧
    ((newImage 2 2).fill White).zBuffer = (newImage 2 2).zBuffer := by
  have h := fill_sets_pixels_keeps_depth (newImage 2 2) White 1 0
    (by decide) (by decide) (by decide) (by decide)
  exact ⟨h.1, h.2.1⟩

/-- C6: the z-buffer makes pixel color order-independent.  Two in-canvas
writes at the same cell with depths `z1 < z2`, starting from a stored
depth of `−∞`, leave the color of the greater depth in either order. -/
theorem set_order_independent (img : Image) (x y : ℤ) (z1 z2 : ℚ)
    (c1 c2 : Color) (hx0 : 0 ≤ x) (hx : x < img.width)
    (hy0 : 0 ≤ y) (hy : y < img.height) (hz : z1 < z2)
    (hinit : img.zBuffer y x = ⊥) :
    ((img.set x y z1 c1).set x y z2 c2).frame y x = c2 ∧
    ((img.set x y z2 c2).set x y z1 c1).frame y x = c2 := by
  have hbounds : ¬(x < 0 ∨ img.width ≤ x ∨ y < 0 ∨ img.height ≤ y) := by
    push_neg
    exact ⟨hx0, hx, hy0, hy⟩
  constructor
  · have h1 : img.zBuffer y x < (z1 : WithBot ℚ) := by
      rw [hinit]
      exact WithBot.bot_lt_coe z1
    simp only [Image.set, if_neg hbounds, if_pos h1]
    have h2 : ((z1 : WithBot ℚ)) < (z2 : WithBot ℚ) := by
      exact_mod_cast hz
    simp [h2]
  · have h2 : img.zBuffer y x < (z2 : WithBot ℚ) := by
      rw [hinit]
      exact WithBot.bot_lt_coe z2
    simp only [Image.set, if_neg hbounds, if_pos h2]
    have h1 : ¬ ((z2 : WithBot ℚ) < (z1 : WithBot ℚ)) := by
      exact_mod_cast not_lt.mpr hz.le
    simp [h1]

/-- Witness for C6 at a concrete cell: depths 1 < 2, colors White then a
distinct color; both orders leave the second color. -/
theorem set_order_independent_witness :
    (((newImage 2 2).set 0 0 1 White).set 0 0 2 ⟨9, 9, 9⟩).frame 0 0 = ⟨9, 9, 9⟩ ∧
    (((newImage 2 2).set 0 0 2 ⟨9, 9, 9⟩).set 0 0 1 White).frame 0 0 = ⟨9, 9, 9⟩ :=
  set_order_independent (newImage 2 2) 0 0 1 2 White ⟨9, 9, 9⟩
    (by decide) (by decide) (by decide) (by decide) (by norm_num) rfl

/-- C2: the claim says `vary("k", 0, 4, 0, 10)` yields `[0,2,4,6,8,10]`
for frames 0–5.  The loop stops at `endFrame = 4`: frames 0–4 receive
`[0,2,4,6,8]` and frame 5 keeps its initial value 0, never 10. -/
theorem vary_frame5_counterexample :
    (varyCase 6 none 0 4 0 10).toOption = some [0, 2, 4, 6, 8, 0] ∧
    ([0, 2, 4, 6, 8, 0] : List ℚ) ≠ [0, 2, 4, 6, 8, 10] := by
  constructor
  · with_unfolding_all decide
  · with_unfolding_all decide

/-- C2 (amended): on a fresh knob with `n ≥ 6` total frames,
`vary("k", 0, 4, 0, 10)` assigns frames 0–4 the values `[0,2,4,6,8]`
(per-frame delta `(10-0)/(4-0+1) = 2`) and leaves frame 5 at its initial
value 0: the assignment loop covers `startFrame..endFrame` only. -/
theorem vary_assigns_start_to_end (n : ℕ) (h : 6 ≤ n) :
    ∃ l : List ℚ, varyCase n none 0 4 0 10 = Except.ok l ∧
      l.take 6 = [0, 2, 4, 6, 8, 0] ∧ l.length = n := by
  obtain ⟨k, rfl⟩ : ∃ k, n = 6 + k := ⟨n - 6, by omega⟩
  have hrep : List.replicate (6 + k) (0 : ℚ) =
      0 :: 0 :: 0 :: 0 :: 0 :: 0 :: List.replicate k 0 := by
    rw [List.replicate_add]
    rfl
  have hassign : varyAssign (0 :: 0 :: 0 :: 0 :: 0 :: 0 :: List.replicate k (0 : ℚ)) 0 0 2 5 =
      0 :: 2 :: 4 :: 6 :: 8 :: 0 :: List.replicate k 0 := by
    with_unfolding_all rfl
  refine ⟨0 :: 2 :: 4 :: 6 :: 8 :: 0 :: List.replicate k 0, ?_, by rfl,
    by simp only [List.length_cons, List.length_replicate]; omega⟩
  have hframes : ¬ (6 + k = 0) := by omega
  have hsf : ¬ ((0 : ℤ) < 0 ∨ ((6 + k : ℕ) : ℤ) ≤ 0) := by push_neg; omega
  have hef : ¬ ((4 : ℤ) < 0 ∨ ((6 + k : ℕ) : ℤ) ≤ 4 ∨ (4 : ℤ) < 0) := by push_neg; omega
  rw [varyCase]
  rw [if_neg hframes, if_neg hsf, if_neg hef]
  have hdelta : ((10 : ℚ) - 0) / ((((4 : ℤ) - 0 : ℤ) : ℚ) + 1) = 2 := by norm_num
  simp only [Option.getD, hrep, hdelta]
  norm_num
  exact hassign

/-- Witness for C2's amended theorem at 7 total frames. -/
theorem vary_assigns_start_to_end_witness :
    ∃ l : List ℚ, varyCase 7 none 0 4 0 10 = Except.ok l ∧
      l.take 6 = [0, 2, 4, 6, 8, 0] ∧ l.length = 7 :=
  vary_assigns_start_to_end 7 (by omega)

/-- C3: the claim says popping a stack holding exactly one matrix is a
no-op.  It is not: `Pop` removes the last matrix and the stack becomes
empty. -/
theorem pop_singleton_empties_counterexample :
    drawerPop [(1 : Mat4)] = [] ∧ ([] : List Mat4) ≠ [(1 : Mat4)] :=
  ⟨rfl, by simp⟩

/-- C3 (amended): `Pop` on any nonempty stack removes the top element —
in particular a one-matrix stack becomes empty — and only `Pop` on an
already-empty stack is a no-op (returning `nil`). -/
theorem pop_removes_top (m : Mat4) (rest : List Mat4) :
    drawerPop (m :: rest) = rest ∧ drawerPop [] = [] ∧
    stackPop [] = (none, ([] : List Mat4)) :=
  ⟨rfl, rfl, rfl⟩

/-- C7: the claim says the degree angle is converted to radians exactly
once, making the composed matrix the rotation by `θ·π/180` radians.  The
code converts twice — `Drawer.Rotate` converts and `MakeRotX` converts
again — so for `Rotate("x", 90)` on an identity top the new top's (1,1)
entry is `cos(π·π/360)`, which is positive, not the claimed
`cos(90·π/180) = cos(π/2) = 0`. -/
theorem rotate_converts_degrees_twice :
    drawerRotate "x" 90 [(1 : Mat4)] =
      Except.ok [(1 : Mat4) * MakeRotX (degreesToRadians 90)] ∧
    ((1 : Mat4) * MakeRotX (degreesToRadians 90)) 1 1 =
      Real.cos (degreesToRadians (degreesToRadians 90)) ∧
    Real.cos (degreesToRadians (degreesToRadians 90)) ≠
      Real.cos (90 * Real.pi / 180) := by
  refine ⟨rfl, ?_, ?_⟩
  · rw [Matrix.one_mul]
    simp [MakeRotX, Matrix.cons_val_one, Matrix.head_cons]
  · have h1 : degreesToRadians (degreesToRadians 90) = Real.pi * Real.pi / 360 := by
      unfold degreesToRadians
      ring
    have h2 : (90 : ℝ) * Real.pi / 180 = Real.pi / 2 := by ring
    rw [h1, h2, Real.cos_pi_div_two]
    have h3 : (0 : ℝ) < Real.cos (Real.pi * Real.pi / 360) := by
      apply Real.cos_pos_of_mem_Ioo
      constructor
      · nlinarith [Real.pi_pos]
      · nlinarith [Real.pi_pos, Real.pi_lt_d2]
    exact ne_of_gt h3

/-- A vertical run of `octLoop2` (`B = 0`, error term never negative, an
integer number `n` of steps): it climbs from `y1` to `y1 + n` plotting the
column `x`. -/
theorem octLoop2_vertical (x A dz : ℚ) :
    ∀ (n : ℕ) (y1 y2 z1 d : ℚ), ¬ d < 0 → y2 - y1 = (n : ℚ) →
      (octLoop2 x y1 z1 y2 A 0 dz d).map posOf =
        (List.range (n + 1)).map fun (k : ℕ) => (goInt x, goInt (y1 + (k : ℚ)))
  | 0, y1, y2, z1, d, hd, hn => by
      have hy : y2 = y1 := by
        have h0 : y2 - y1 = 0 := by exact_mod_cast hn
        linarith
      rw [hy]
      rw [octLoop2, dif_pos (le_refl y1), if_neg hd]
      rw [octLoop2, dif_neg (by linarith : ¬ (y1 + 1 ≤ y1))]
      have hr1 : List.range 1 = [0] := rfl
      rw [hr1]
      simp [posOf]
  | n + 1, y1, y2, z1, d, hd, hn => by
      have hle : y1 ≤ y2 := by
        have h0 : (0 : ℚ) ≤ ((n + 1 : ℕ) : ℚ) := by positivity
        linarith [hn ▸ h0]
      rw [octLoop2, dif_pos hle, if_neg hd]
      have hd2 : ¬ (d + 0 < 0) := by simpa using hd
      have hn2 : y2 - (y1 + 1) = (n : ℚ) := by push_cast at hn ⊢; linarith
      rw [List.map_cons,
        octLoop2_vertical x A dz n (y1 + 1) y2 (z1 + dz) (d + 0) hd2 hn2]
      conv_rhs => rw [List.range_succ_eq_map, List.map_cons, List.map_map]
      congr 1
      · simp [posOf]
      · refine List.map_congr_left fun k hk => ?_
        simp only [Function.comp]
        congr 2
        push_cast
        ring

/-- A vertical run of `octLoop7` (`B = 0`, error term never positive, an
integer number `n` of steps): it descends from `y1` to `y1 - n` plotting
the column `x`. -/
theorem octLoop7_vertical (x A dz : ℚ) :
    ∀ (n : ℕ) (y1 y2 z1 d : ℚ), ¬ 0 < d → y1 - y2 = (n : ℚ) →
      (octLoop7 x y1 z1 y2 A 0 dz d).map posOf =
        (List.range (n + 1)).map fun (k : ℕ) => (goInt x, goInt (y1 - (k : ℚ)))
  | 0, y1, y2, z1, d, hd, hn => by
      have hy : y2 = y1 := by
        have h0 : y1 - y2 = 0 := by exact_mod_cast hn
        linarith
      rw [hy]
      rw [octLoop7, dif_pos (le_refl y1), if_neg hd]
      rw [octLoop7, dif_neg (by linarith : ¬ (y1 ≤ y1 - 1))]
      have hr1 : List.range 1 = [0] := rfl
      rw [hr1]
      simp [posOf]
  | n + 1, y1, y2, z1, d, hd, hn => by
      have hle : y2 ≤ y1 := by
        have h0 : (0 : ℚ) ≤ ((n + 1 : ℕ) : ℚ) := by positivity
        linarith [hn ▸ h0]
      rw [octLoop7, dif_pos hle, if_neg hd]
      have hd2 : ¬ (0 < d - 0) := by simpa using hd
      have hn2 : (y1 - 1) - y2 = (n : ℚ) := by push_cast at hn ⊢; linarith
      rw [List.map_cons,
        octLoop7_vertical x A dz n (y1 - 1) y2 (z1 + dz) (d - 0) hd2 hn2]
      conv_rhs => rw [List.range_succ_eq_map, List.map_cons, List.map_map]
      congr 1
      · simp [posOf]
      · refine List.map_congr_left fun k hk => ?_
        simp only [Function.comp]
        congr 2
        push_cast
        ring

/-- A degenerate run of `octLoop8` with equal x endpoints plots exactly
one pixel. -/
theorem octLoop8_single (x y z A B dz d : ℚ) :
    octLoop8 x y z x A B dz d = [(goInt x, goInt y, z)] := by
  have hg : ¬ (x + 1 ≤ x) := by linarith
  simp [octLoop8, hg]

/-- Reversing the index direction of a `List.range` map leaves its
element set unchanged. -/
theorem range_map_rev_toFinset {α : Type} [DecidableEq α] (n : ℕ) (g : ℕ → α) :
    ((List.range (n + 1)).map fun k => g (n - k)).toFinset =
      ((List.range (n + 1)).map g).toFinset := by
  ext a
  simp only [List.mem_toFinset, List.mem_map, List.mem_range]
  constructor
  · rintro ⟨k, hk, rfl⟩
    exact ⟨n - k, by omega, rfl⟩
  · rintro ⟨k, hk, rfl⟩
    exact ⟨n - k, by omega, by congr 1; omega⟩

/-- Vertical symmetry, ascending side: with the y-span a positive integer
`n`, climbing (octant 2) and descending (octant 7) plot the same pixel
set. -/
theorem core_vertical_up (x y1 z1 y2 z2 : ℚ) (n : ℕ) (hpos : 0 < n)
    (hn : y2 - y1 = (n : ℚ)) :
    posSet (drawLineCore x y1 z1 x y2 z2) =
      posSet (drawLineCore x y2 z2 x y1 z1) := by
  have hncast : (0 : ℚ) < (n : ℚ) := by exact_mod_cast hpos
  have hB : -(2 * -(x - x) : ℚ) = 0 := by ring
  have hB0 : (2 * -(x - x) : ℚ) = 0 := by ring
  have hA1 : (0 : ℚ) < 2 * (y2 - y1) := by rw [hn]; linarith
  have hrev : y1 - y2 = -(y2 - y1) := by ring
  have hA2 : ¬ ((0 : ℚ) < 2 * (y1 - y2)) := by
    intro hc
    rw [hrev, hn] at hc
    linarith
  have hA2neg : (2 * (y1 - y2) : ℚ) < 0 := by
    rw [hrev, hn]
    linarith
  simp only [drawLineCore, drawOctant2, drawOctant7, posSet]
  rw [if_pos hB, if_pos hB, if_pos hA1, if_neg hA2, if_pos hA2neg]
  rw [hB0]
  have hd2 : ¬ (2 * (y2 - y1) / 2 + 0 < 0) := by
    have e : (2 * (y2 - y1) / 2 + 0 : ℚ) = y2 - y1 := by ring
    rw [e, hn]
    linarith
  have hd7 : ¬ (0 < 2 * (y1 - y2) / 2 + 0) := by
    have e : (2 * (y1 - y2) / 2 + 0 : ℚ) = -(y2 - y1) := by ring
    rw [e, hn]
    linarith
  rw [octLoop2_vertical x (2 * (y2 - y1)) ((z2 - z1) / (y2 - y1)) n y1 y2 z1
    (2 * (y2 - y1) / 2 + 0) hd2 hn]
  rw [octLoop7_vertical x (2 * (y1 - y2)) ((z1 - z2) / (y1 - y2)) n y2 y1 z2
    (2 * (y1 - y2) / 2 + 0) hd7 hn]
  have hrw : (List.range (n + 1)).map (fun (k : ℕ) => (goInt x, goInt (y2 - (k : ℚ)))) =
      (List.range (n + 1)).map
        (fun k => (fun (j : ℕ) => (goInt x, goInt (y1 + (j : ℚ)))) (n - k)) := by
    refine List.map_congr_left fun k hk => ?_
    have hk2 : k ≤ n := by
      simp only [List.mem_range] at hk
      omega
    congr 2
    have : ((n - k : ℕ) : ℚ) = (n : ℚ) - (k : ℚ) := by
      push_cast [hk2]
      ring
    rw [this]
    linarith
  rw [hrw]
  exact (range_map_rev_toFinset n fun j => (goInt x, goInt (y1 + (j : ℚ)))).symm

/-- Vertical symmetry for any integer y-span. -/
theorem core_vertical_symm (x y1 z1 y2 z2 : ℚ) (n : ℤ) (hn : y2 - y1 = (n : ℚ)) :
    posSet (drawLineCore x y1 z1 x y2 z2) =
      posSet (drawLineCore x y2 z2 x y1 z1) := by
  rcases lt_trichotomy 0 n with hpos | hz | hneg
  · lift n to ℕ using hpos.le with m
    have hm : 0 < m := by exact_mod_cast hpos
    have hn2 : y2 - y1 = (m : ℚ) := by exact_mod_cast hn
    exact core_vertical_up x y1 z1 y2 z2 m hm hn2
  · have hy : y2 = y1 := by
      rw [← hz] at hn
      have h0 : y2 - y1 = 0 := by exact_mod_cast hn
      linarith
    rw [hy]
    have hB : -(2 * -(x - x) : ℚ) = 0 := by ring
    have hA0 : ¬ ((0 : ℚ) < 2 * (y1 - y1)) := by norm_num
    have hA0n : ¬ ((2 * (y1 - y1) : ℚ) < 0) := by norm_num
    simp only [drawLineCore, drawOctant8, posSet]
    rw [if_pos hB, if_pos hB, if_neg hA0, if_neg hA0n, if_neg hA0, if_neg hA0n]
    rw [octLoop8_single, octLoop8_single]
    simp [posOf]
  · have hneg2 : (0 : ℤ) < -n := by omega
    obtain ⟨m, hm2⟩ : ∃ m : ℕ, (m : ℤ) = -n := ⟨(-n).toNat, by omega⟩
    have hm : 0 < m := by omega
    have hn2 : y1 - y2 = (m : ℚ) := by
      have hq : ((m : ℤ) : ℚ) = ((-n : ℤ) : ℚ) := by rw [hm2]
      push_cast at hq
      linarith [hn, hq]
    exact (core_vertical_up x y2 z2 y1 z1 m hm hn2).symm

/-- C9 (amended): the two draw directions write the same pixel set
whenever the endpoints differ in x (the swap normalizes both calls to the
same one), and for vertical endpoints whenever the y-difference is an
integer — in particular for all integer endpoints.  (For vertical
endpoints with a fractional y-difference the two directions can differ:
see the counterexample.) -/
theorem drawLine_pixel_symmetric (x1 y1 z1 x2 y2 z2 : ℚ)
    (h : x1 ≠ x2 ∨ ∃ n : ℤ, y2 - y1 = (n : ℚ)) :
    posSet (drawLinePlots x1 y1 z1 x2 y2 z2) =
      posSet (drawLinePlots x2 y2 z2 x1 y1 z1) := by
  rcases lt_trichotomy x1 x2 with hlt | heq | hgt
  · simp only [drawLinePlots]
    rw [if_neg (not_lt.mpr hlt.le), if_pos hlt]
  · rcases h with hne | ⟨n, hn⟩
    · exact absurd heq hne
    · rw [heq]
      simp only [drawLinePlots]
      rw [if_neg (lt_irrefl x2), if_neg (lt_irrefl x2)]
      exact core_vertical_symm x2 y1 z1 y2 z2 n hn
  · simp only [drawLinePlots]
    rw [if_pos hgt, if_neg (not_lt.mpr hgt.le)]

/-- Witness for C9's amended theorem: a sloped line and its reverse. -/
theorem drawLine_pixel_symmetric_witness :
    (0 : ℚ) ≠ 3 ∧
    posSet (drawLinePlots 0 0 0 3 2 0) = posSet (drawLinePlots 3 2 0 0 0 0) :=
  ⟨by norm_num, drawLine_pixel_symmetric 0 0 0 3 2 0 (Or.inl (by norm_num))⟩

/-- C9: the claim says the rasterizer is symmetric in its endpoints for
every pair.  It is not: the vertical segment from `(0, 3/4)` to `(0, 2)`
plots rows 0 and 1 when drawn upward but rows 2 and 1 when drawn
downward, so pixel `(0,2)` is written in one direction only. -/
theorem drawLine_symmetry_counterexample :
    posSet (drawLinePlots 0 (3 / 4) 0 0 2 0) ≠
      posSet (drawLinePlots 0 2 0 0 (3 / 4) 0) := by
  have h1 : (0, 2) ∉ (drawLinePlots 0 (3 / 4) 0 0 2 0).map posOf := by
    with_unfolding_all decide
  have h2 : (0, 2) ∈ (drawLinePlots 0 2 0 0 (3 / 4) 0).map posOf := by
    with_unfolding_all decide
  intro heq
  simp only [posSet] at heq
  have h3 := List.mem_toFinset.mpr h2
  rw [← heq] at h3
  exact h1 (List.mem_toFinset.mp h3)

end GE
